import Mathlib

/-!
Shallow embedding of the Imprisoned text-adventure engine
(`imprisoned_env.py`): the state-graph data model, action availability,
the `step` transition (with its random draws passed as explicit inputs),
construction and reset.  Python dictionaries are modelled as insertion
ordered association lists, the inventory `set` as a duplicate-free list
(only membership is ever observed), machine randomness as explicit
parameters (a rational in `[0, 1)` for `random.random`, a natural index
for `random.choice`), and Python exceptions as the `Except.error`
constructor.  Weights are modelled as rationals.
-/

deriving instance DecidableEq for Except

namespace Imprisoned

abbrev StateID := String
abbrev ItemID := String
abbrev ActionID := String

/-- An action entry of the YAML configuration.  `requires` models
`conditions.get("requires")` (missing `conditions` or missing `requires`
both give `none`); `grants` is `some v` exactly when the `"grants"` key is
present; `probabilities` keeps the mapping's insertion order. -/
structure ActionDef where
  requires : Option ItemID := none
  grants : Option ItemID := none
  probabilities : Option (List (StateID × ℚ)) := none
  next_state : Option StateID := none
  deriving DecidableEq

/-- A state entry of the YAML configuration.  `terminal` models
`get("terminal", False)` and `actions` models `get("actions", {})`. -/
structure StateDef where
  description : Option String := none
  terminal : Bool := false
  actions : List (ActionID × ActionDef) := []
  deriving DecidableEq

/-- The engine's mutable data: the loaded graph, the validated starting
states, and the episode state (`current_state`, `terminal`, inventory). -/
structure Env where
  states : List (StateID × StateDef)
  starting_states : List StateID
  current_state : StateID
  terminal : Bool
  inventory : List ItemID
  deriving DecidableEq

/-- The parsed YAML document: `game_data.get("states", {})` and
`game_data.get("starting_states", [])`. -/
structure GameData where
  states : List (StateID × StateDef)
  starting_states : List StateID
  deriving DecidableEq

/-- The observable triple returned by `step` (the trailing empty info
dict is constant and omitted). -/
structure StepResult where
  obs : StateID
  reward : Int
  terminal : Bool
  deriving DecidableEq

/-- Python `lst[i]` on an `int` index: non-negative indices from the
front, indices in `[-len, -1]` from the back, anything else raises. -/
def pyIndex {α : Type} (l : List α) (i : Int) : Option α :=
  if 0 ≤ i then l.get? i.toNat
  else if 0 ≤ (l.length : Int) + i then l.get? (((l.length : Int) + i).toNat)
  else none

/-- Python `random.choice(l)` with the drawn index `n` made explicit;
raises `IndexError` on an empty sequence. -/
def pyChoice (l : List StateID) (n : Nat) : Except String StateID :=
  if l.isEmpty then .error "IndexError: cannot choose from an empty sequence"
  else .ok (l.getD (n % l.length) "")

/-- Running totals of a weight list, as computed by
`itertools.accumulate` inside `random.choices`. -/
def cumsumFrom (acc : ℚ) : List ℚ → List ℚ
  | [] => []
  | w :: ws => (acc + w) :: cumsumFrom (acc + w) ws

/-- Cumulative weights starting from zero. -/
def cumsum (ws : List ℚ) : List ℚ := cumsumFrom 0 ws

/-- `bisect.bisect_right(cum, x, 0, hi)` on a nondecreasing list equals
the number of entries among the first `hi` that are `≤ x`; the
cumulative-weight list is nondecreasing for non-negative weights. -/
def pyBisect (cum : List ℚ) (x : ℚ) (hi : Nat) : Nat :=
  (cum.take hi).countP (fun c => decide (c ≤ x))

/-- Python `random.choices(population, weights)[0]` with the uniform
draw `u01 ∈ [0, 1)` made explicit: raises on an empty weight list and on
a non-positive weight total, otherwise bisects the cumulative weights at
`u01 * total` clamped to index `population.length - 1`. -/
def pyChoices (population : List StateID) (weights : List ℚ) (u01 : ℚ) :
    Except String StateID :=
  let cum := cumsum weights
  match cum.getLast? with
  | none => .error "IndexError: cum_weights is empty"
  | some total =>
    if total ≤ 0 then .error "ValueError: total of weights must be greater than zero"
    else
      match population.get? (pyBisect cum (u01 * total) (population.length - 1)) with
      | some s => .ok s
      | none => .error "IndexError: population index out of range"

/-- The index `random.choices` selects for weight list `ws` and uniform
draw `u01`, assuming the weight total is the last cumulative weight. -/
def choicesIdx (ws : List ℚ) (u01 : ℚ) : Nat :=
  pyBisect (cumsum ws) (u01 * ws.sum) (ws.length - 1)

/-- Python `set.add`: a no-op when the item is already present. -/
def insertItem (itm : ItemID) (inventory : List ItemID) : List ItemID :=
  if inventory.contains itm then inventory else inventory ++ [itm]

/-- The availability test of `get_available_actions`: Python's
`not required_item or required_item in self.inventory`, where a missing
key and an empty string are both falsy. -/
def actionAvailable (inventory : List ItemID) (action_data : ActionDef) : Bool :=
  match action_data.requires with
  | none => true
  | some itm => itm == "" || inventory.contains itm

/-- `ImprisonedEnv.get_available_actions`: the empty list when the
current state is missing from the graph, else the keys of the state's
action mapping passing the availability test, in insertion order. -/
def get_available_actions (e : Env) : List ActionID :=
  match e.states.lookup e.current_state with
  | none => []
  | some st => (st.actions.filter (fun p => actionAvailable e.inventory p.2)).map Prod.fst

/-- The inventory mutation at the top of a valid `step`: add the
`grants` item when the key is present (`set.add`, idempotent). -/
def updatedInv (e : Env) (action_data : ActionDef) : List ItemID :=
  match action_data.grants with
  | some itm => insertItem itm e.inventory
  | none => e.inventory

/-- The commit point of `step`: move to the new state, record its
terminal flag, keep the (possibly grown) inventory. -/
def commitEnv (e : Env) (inv : List ItemID) (new_state : StateID)
    (terminalFlag : Bool) : Env :=
  { e with current_state := new_state, terminal := terminalFlag,
           inventory := inv }

/-- The next-state resolution inside `step`: a weighted draw when
`probabilities` is present, else `next_state` with the current state as
the self-loop default. -/
def resolveNext (e : Env) (action_data : ActionDef) (u01 : ℚ) :
    Except String StateID :=
  match action_data.probabilities with
  | some probs => pyChoices (probs.map Prod.fst) (probs.map Prod.snd) u01
  | none => .ok (action_data.next_state.getD e.current_state)

/-- `ImprisonedEnv.step`.  `u01` is the uniform draw feeding
`random.choices`; `fb` and `rc` are the indices drawn by the two
`random.choice(self.starting_states)` calls (dangling-next-state fallback
and stuck-state recovery).  A Python exception surfaces as `.error`; the
partially mutated interpreter state an exception would leave behind is
not observable through the engine's interface and is not modelled. -/
def step (e : Env) (action_index : Int) (u01 : ℚ) (fb rc : Nat) :
    Except String (Env × StepResult) :=
  let actions := get_available_actions e
  if actions.isEmpty then
    .ok (e, ⟨e.current_state, -1, true⟩)
  else if (actions.length : Int) ≤ action_index then
    .ok (e, ⟨e.current_state, -1, true⟩)
  else
    match pyIndex actions action_index with
    | none => .error "IndexError: list index out of range"
    | some chosen_action =>
      match e.states.lookup e.current_state with
      | none => .error "KeyError: current state"
      | some st =>
        match st.actions.lookup chosen_action with
        | none => .error "KeyError: chosen action"
        | some action_data =>
          let inv := updatedInv e action_data
          match resolveNext e action_data u01 with
          | .error msg => .error msg
          | .ok ns0 =>
            match (if (e.states.lookup ns0).isSome then Except.ok ns0
                   else pyChoice e.starting_states fb) with
            | .error msg => .error msg
            | .ok new_state =>
              match e.states.lookup new_state with
              | none => .error "KeyError: new state"
              | some stNew =>
                let e1 : Env := commitEnv e inv new_state stNew.terminal
                match (if (get_available_actions e1).isEmpty && !stNew.terminal then
                         pyChoice e.starting_states rc
                       else Except.ok e1.current_state) with
                | .error msg => .error msg
                | .ok finalState =>
                  let e2 : Env := { e1 with current_state := finalState }
                  let reward : Int :=
                    if e2.current_state = "escape_success" then 1
                    else if stNew.terminal then -1 else 0
                  .ok (e2, ⟨e2.current_state, reward, stNew.terminal⟩)

/-- The starting states surviving the construction-time filter
`[s for s in self.starting_states if s in self.states]`. -/
def validStarting (game_data : GameData) : List StateID :=
  game_data.starting_states.filter (fun s => (game_data.states.lookup s).isSome)

/-- `ImprisonedEnv.__init__` after YAML parsing (file loading is the
external loader's concern; the gymnasium space declarations carry no
engine logic).  `r` is the index drawn by `random.choice`. -/
def initEnv (game_data : GameData) (r : Nat) : Except String Env :=
  let valid := validStarting game_data
  if valid.isEmpty then .error "No valid starting states found in the YAML!"
  else
    match pyChoice valid r with
    | .error msg => .error msg
    | .ok cs =>
      .ok { states := game_data.states, starting_states := valid,
            current_state := cs, terminal := false, inventory := [] }

/-- The `random.choice` / re-validation loop of `reset`, consuming one
drawn index per iteration; an exhausted draw stream models a diverging
loop (never reached once starting states are validated). -/
def resetPick (states : List (StateID × StateDef)) (ss : List StateID) :
    List Nat → Except String StateID
  | [] => .error "reset: draw stream exhausted"
  | r :: rest =>
    match pyChoice ss r with
    | .error msg => .error msg
    | .ok s =>
      if (states.lookup s).isSome then .ok s else resetPick states ss rest

/-- `ImprisonedEnv.reset`: re-draw the current state, clear the terminal
flag and the inventory, return the new current state. -/
def reset (e : Env) (draws : List Nat) : Except String (Env × StateID) :=
  match resetPick e.states e.starting_states draws with
  | .error msg => .error msg
  | .ok s =>
    .ok ({ e with current_state := s, terminal := false, inventory := [] }, s)

/-- An engine as `__init__` leaves it: a non-empty validated starting
list all of whose members are present in the graph. -/
def Env.Valid (e : Env) : Prop :=
  e.starting_states ≠ [] ∧
    ∀ s ∈ e.starting_states, (e.states.lookup s).isSome = true

instance (e : Env) : Decidable e.Valid := by
  unfold Env.Valid; infer_instance

/-- Decidable check that an action's probability weights, when present,
have a positive total: exactly the configurations on which the weighted
draw inside `step` cannot raise. -/
def probsPositive (action_data : ActionDef) : Bool :=
  match action_data.probabilities with
  | none => true
  | some probs => decide (0 < (probs.map Prod.snd).sum)

/-- Modelled from the spec: the availability contract of
`getAvailableActions` in the spec's own words — an action is listed iff
its `conditions.requires` is absent or is an item already present in the
inventory (the code's truthiness test additionally lets an empty-string
requirement through; this definition exists to be compared with
`get_available_actions`). -/
def specAvailableActions (e : Env) : List ActionID :=
  match e.states.lookup e.current_state with
  | none => []
  | some st =>
    (st.actions.filter (fun p =>
      match p.2.requires with
      | none => true
      | some itm => e.inventory.contains itm)).map Prod.fst

/-! Concrete configurations used by counterexamples and witnesses. -/

/-- A one-state graph with a single unconditional self-loop action. -/
def gdCell : GameData :=
  ⟨[("cell", { actions := [("wait", { next_state := some "cell" })] })], ["cell"]⟩

/-- The engine `__init__` builds from `gdCell`. -/
def envCell : Env :=
  ⟨[("cell", { actions := [("wait", { next_state := some "cell" })] })],
    ["cell"], "cell", false, []⟩

/-- A graph whose only action carries an all-zero `probabilities` mapping. -/
def gdZero : GameData :=
  ⟨[("s", { actions := [("risk", { probabilities := some [("s", 0)] })] })], ["s"]⟩

/-- The engine built from `gdZero`. -/
def envZero : Env :=
  ⟨[("s", { actions := [("risk", { probabilities := some [("s", 0)] })] })],
    ["s"], "s", false, []⟩

/-- A graph where the only action leads to an action-less non-terminal
state, and one of the starting states is itself action-less and
non-terminal. -/
def statesStuck : List (StateID × StateDef) :=
  [("a", { actions := [("go", { next_state := some "b" })] }), ("b", {}), ("c", {})]

/-- Game data over `statesStuck` with starting states `a` and `c`. -/
def gdStuck : GameData := ⟨statesStuck, ["a", "c"]⟩

/-- The engine built from `gdStuck` when the initial draw picks `a`. -/
def envStuck : Env := ⟨statesStuck, ["a", "c"], "a", false, []⟩

/-- `envStuck` after `step` relocates to the starting state `c`. -/
def envStuckAfter : Env := ⟨statesStuck, ["a", "c"], "c", false, []⟩

/-- A graph whose only action has the falsy requirement `requires: ""`. -/
def statesEmptyReq : List (StateID × StateDef) :=
  [("s", { actions := [("act", { requires := some "", next_state := some "s" })] })]

/-- Game data over `statesEmptyReq`. -/
def gdEmptyReq : GameData := ⟨statesEmptyReq, ["s"]⟩

/-- The engine built from `gdEmptyReq`. -/
def envEmptyReq : Env := ⟨statesEmptyReq, ["s"], "s", false, []⟩

/-- A graph whose first action points at a nonexistent state id. -/
def statesDangling : List (StateID × StateDef) :=
  [("a", { actions := [("jump", { next_state := some "nowhere" })] }),
   ("b", { actions := [("stay", { next_state := some "b" })] })]

/-- An engine over `statesDangling` positioned at `a`. -/
def envDangling : Env := ⟨statesDangling, ["a", "b"], "a", false, []⟩

/-- `envDangling` after the fallback lands on `b`. -/
def envDanglingAfter : Env := ⟨statesDangling, ["a", "b"], "b", false, []⟩

/-- A graph offering a winning and a losing terminal transition. -/
def statesEscape : List (StateID × StateDef) :=
  [("a", { actions := [("win", { next_state := some "escape_success" }),
                       ("die", { next_state := some "death" })] }),
   ("escape_success", { terminal := true }), ("death", { terminal := true })]

/-- An engine over `statesEscape` positioned at `a`. -/
def envEscape : Env := ⟨statesEscape, ["a"], "a", false, []⟩

/-- `envEscape` after taking the winning action. -/
def envEscapeWin : Env := ⟨statesEscape, ["a"], "escape_success", true, []⟩

/-- A graph with a genuinely probabilistic action of weights 3 and 1. -/
def statesProb : List (StateID × StateDef) :=
  [("a", { actions := [("roll", { probabilities := some [("a", 3), ("b", 1)] })] }),
   ("b", { actions := [("stay", { next_state := some "b" })] })]

/-- An engine over `statesProb` positioned at `a`. -/
def envProb : Env := ⟨statesProb, ["a", "b"], "a", false, []⟩

/-- The weight mapping `A: 3, B: 1`. -/
def probsAB : List (StateID × ℚ) := [("A", 3), ("B", 1)]

/-- An action definition carrying the weight mapping `A: 3, B: 1`. -/
def adProb : ActionDef := { probabilities := some probsAB }

/-! Helper lemmas about association-list lookup, Python indexing and the
weighted draw. -/

theorem lookup_isSome_of_mem {β : Type} (l : List (String × β)) (a : String)
    (h : ∃ b, (a, b) ∈ l) : (l.lookup a).isSome = true := by
  induction l with
  | nil => simp at h
  | cons p t ih =>
    obtain ⟨b, hb⟩ := h
    rcases List.mem_cons.mp hb with h1 | h1
    · simp [List.lookup, ← h1]
    · by_cases hk : a = p.1
      · simp [List.lookup, hk]
      · have : (a == p.1) = false := beq_false_of_ne hk
        simpa [List.lookup, this] using ih ⟨b, h1⟩

theorem mem_of_lookup_eq_some {β : Type} (l : List (String × β)) (a : String) (b : β)
    (h : l.lookup a = some b) : (a, b) ∈ l := by
  induction l with
  | nil => simp [List.lookup] at h
  | cons p t ih =>
    by_cases hk : a = p.1
    · have : (a == p.1) = true := beq_iff_eq.mpr hk
      simp only [List.lookup, this] at h
      obtain ⟨b2⟩ := p
      simp at h hk
      simp [hk, h]
    · have : (a == p.1) = false := beq_false_of_ne hk
      simp only [List.lookup, this] at h
      exact List.mem_cons.mpr (Or.inr (ih h))

theorem getD_mem_of_lt {α : Type} (l : List α) (n : Nat) (d : α)
    (h : n < l.length) : l.getD n d ∈ l := by
  rw [List.getD_eq_getElem l d h]
  exact List.getElem_mem h

theorem pyChoice_eq_ok (l : List StateID) (n : Nat) (h : l ≠ []) :
    pyChoice l n = .ok (l.getD (n % l.length) "") ∧
      l.getD (n % l.length) "" ∈ l := by
  have he : l.isEmpty = false := by simpa [List.isEmpty_iff] using h
  have hlt : n % l.length < l.length :=
    Nat.mod_lt _ (List.length_pos.mpr h)
  exact ⟨by simp [pyChoice, he], getD_mem_of_lt _ _ _ hlt⟩

theorem pyChoice_ok_mem (l : List StateID) (n : Nat) (s : StateID)
    (h : pyChoice l n = .ok s) : s ∈ l := by
  have hne : l ≠ [] := by
    intro hl; subst hl; simp [pyChoice] at h
  obtain ⟨heq, hmem⟩ := pyChoice_eq_ok l n hne
  rw [heq] at h
  injection h with h2
  exact h2 ▸ hmem

theorem pyIndex_isSome {α : Type} (l : List α) (i : Int)
    (h1 : -(l.length : Int) ≤ i) (h2 : i < (l.length : Int)) :
    (pyIndex l i).isSome = true := by
  unfold pyIndex
  by_cases h0 : 0 ≤ i
  · have : i.toNat < l.length := by omega
    simp [h0, List.get?_eq_getElem?, List.getElem?_eq_getElem this]
  · have hnn : 0 ≤ (l.length : Int) + i := by omega
    have : ((l.length : Int) + i).toNat < l.length := by omega
    simp [h0, hnn, List.get?_eq_getElem?, List.getElem?_eq_getElem this]

theorem pyIndex_mem {α : Type} (l : List α) (i : Int) (a : α)
    (h : pyIndex l i = some a) : a ∈ l := by
  unfold pyIndex at h
  split at h
  · exact List.get?_mem h
  · split at h
    · exact List.get?_mem h
    · exact absurd h (by simp)

theorem pyIndex_lt {α : Type} (l : List α) (i : Int) (a : α)
    (h : pyIndex l i = some a) : i < (l.length : Int) := by
  unfold pyIndex at h
  by_cases h0 : 0 ≤ i
  · rw [if_pos h0] at h
    obtain ⟨hlt, -⟩ := List.get?_eq_some.mp h
    omega
  · omega

theorem pyIndex_ne_nil {α : Type} (l : List α) (i : Int) (a : α)
    (h : pyIndex l i = some a) : l ≠ [] :=
  List.ne_nil_of_mem (pyIndex_mem l i a h)

theorem gaa_lookup_isSome (e : Env) (h : get_available_actions e ≠ []) :
    ∃ st, e.states.lookup e.current_state = some st := by
  unfold get_available_actions at h
  cases hst : e.states.lookup e.current_state with
  | none => rw [hst] at h; exact absurd rfl h
  | some st => exact ⟨st, rfl⟩

theorem gaa_mem_actions (e : Env) (st : StateDef) (a : ActionID)
    (hst : e.states.lookup e.current_state = some st)
    (ha : a ∈ get_available_actions e) :
    ∃ ad, (a, ad) ∈ st.actions ∧ actionAvailable e.inventory ad = true := by
  unfold get_available_actions at ha
  rw [hst] at ha
  obtain ⟨p, hp, hfst⟩ := List.mem_map.mp ha
  obtain ⟨hpmem, hpav⟩ := List.mem_filter.mp hp
  refine ⟨p.2, ?_, hpav⟩
  have hpe : (a, p.2) = p := by rw [← hfst]
  rw [hpe]
  exact hpmem

theorem gaa_lookup_action_isSome (e : Env) (st : StateDef) (a : ActionID)
    (hst : e.states.lookup e.current_state = some st)
    (ha : a ∈ get_available_actions e) :
    (st.actions.lookup a).isSome = true := by
  obtain ⟨ad, hmem, _⟩ := gaa_mem_actions e st a hst ha
  exact lookup_isSome_of_mem _ _ ⟨ad, hmem⟩

theorem actionAvailable_iff (inventory : List ItemID) (ad : ActionDef) :
    actionAvailable inventory ad = true ↔
      (ad.requires = none ∨ ad.requires = some "" ∨
        ∃ itm, ad.requires = some itm ∧ itm ∈ inventory) := by
  unfold actionAvailable
  cases hr : ad.requires with
  | none => simp
  | some itm =>
    constructor
    · intro h
      simp only [Bool.or_eq_true, beq_iff_eq] at h
      rcases h with h | h
      · exact Or.inr (Or.inl (by rw [h]))
      · exact Or.inr (Or.inr ⟨itm, rfl, by simpa using h⟩)
    · rintro (h | h | ⟨itm2, hq, hm⟩)
      · exact absurd h (by simp)
      · injection h with h2
        simp [h2]
      · injection hq with h2
        subst h2
        simp [hm]

theorem pyChoice_error (l : List StateID) (n : Nat) (msg : String)
    (h : pyChoice l n = .error msg) : l = [] := by
  by_cases he : l.isEmpty
  · exact List.isEmpty_iff.mp he
  · rw [(pyChoice_eq_ok l n (by simpa [List.isEmpty_iff] using he)).1] at h
    exact absurd h (by simp)

theorem lt_of_mem_cumsumFrom (ws : List ℚ) (a x : ℚ)
    (hnn : ∀ w ∈ ws, 0 ≤ w) (hx : x < a) :
    ∀ c ∈ cumsumFrom a ws, x < c := by
  induction ws generalizing a with
  | nil => intro c hc; simp [cumsumFrom] at hc
  | cons w t ih =>
    intro c hc
    have hw : 0 ≤ w := hnn w (by simp)
    have hx2 : x < a + w := lt_of_lt_of_le hx (by linarith)
    rcases List.mem_cons.mp hc with h1 | h1
    · exact h1 ▸ hx2
    · exact ih (a + w) (fun v hv => hnn v (by simp [hv])) hx2 c h1

theorem cumsumFrom_getLast (ws : List ℚ) (a : ℚ) (h : ws ≠ []) :
    (cumsumFrom a ws).getLast? = some (a + ws.sum) := by
  induction ws generalizing a with
  | nil => exact absurd rfl h
  | cons w t ih =>
    cases t with
    | nil => simp [cumsumFrom]
    | cons w2 t2 =>
      have := ih (a := a + w) (by simp)
      simp only [cumsumFrom] at this ⊢
      rw [List.getLast?_cons_cons]
      rw [this]
      congr 1
      simp
      ring

theorem cumsumFrom_length (ws : List ℚ) (a : ℚ) :
    (cumsumFrom a ws).length = ws.length := by
  induction ws generalizing a with
  | nil => simp [cumsumFrom]
  | cons w t ih => simp [cumsumFrom, ih]

theorem pyBisect_le (cum : List ℚ) (x : ℚ) (hi : Nat) : pyBisect cum x hi ≤ hi := by
  calc (cum.take hi).countP (fun c => decide (c ≤ x))
      ≤ (cum.take hi).length := List.countP_le_length _
    _ ≤ hi := by simp [List.length_take]

theorem cumsumFrom_cons (a w : ℚ) (t : List ℚ) :
    cumsumFrom a (w :: t) = (a + w) :: cumsumFrom (a + w) t := rfl

theorem countP_cumsumFrom_eq (ws : List ℚ) (a x : ℚ) (j : Nat)
    (hnn : ∀ w ∈ ws, 0 ≤ w) (hax : a ≤ x) (hx : x < a + ws.sum)
    (hj : j < ws.length) :
    (((cumsumFrom a ws).take (ws.length - 1)).countP (fun c => decide (c ≤ x)) = j
      ↔ a + (ws.take j).sum ≤ x ∧ x < a + (ws.take (j + 1)).sum) := by
  induction ws generalizing a j with
  | nil => simp at hj
  | cons w t ih =>
    have hw : 0 ≤ w := hnn w (by simp)
    have hnt : ∀ v ∈ t, 0 ≤ v := fun v hv => hnn v (by simp [hv])
    cases t with
    | nil =>
      have hj0 : j = 0 := by simpa using hj
      subst hj0
      have hx1 : x < a + w := by
        simpa using hx
      have hred : (((cumsumFrom a [w]).take ([w].length - 1)).countP
          (fun c => decide (c ≤ x))) = 0 := by
        simp [cumsumFrom]
      rw [hred]
      simp only [List.take_zero, List.take_succ_cons, List.sum_nil, List.sum_cons, add_zero]
      exact ⟨fun _ => ⟨hax, hx1⟩, fun _ => trivial⟩
    | cons w2 t2 =>
      have hlen : (w :: w2 :: t2).length - 1 = t2.length + 1 := by simp
      have hlen2 : (w2 :: t2).length - 1 = t2.length := by simp
      rw [hlen, cumsumFrom_cons, List.take_succ_cons, List.countP_cons]
      by_cases hcut : a + w ≤ x
      · have hd : (decide (a + w ≤ x)) = true := decide_eq_true hcut
        rw [hd, if_pos rfl]
        have hx2 : x < (a + w) + (w2 :: t2).sum := by
          simp only [List.sum_cons] at hx ⊢; linarith
        cases j with
        | zero =>
          constructor
          · intro hcount; omega
          · rintro ⟨-, hlt⟩
            simp only [List.take_succ_cons, List.take_zero, List.sum_cons,
              List.sum_nil, add_zero] at hlt
            exact absurd hcut (by linarith)
        | succ j2 =>
          have hj2 : j2 < (w2 :: t2).length := by
            simpa using Nat.lt_of_succ_lt_succ hj
          have ihs := ih (a + w) j2 hnt hcut hx2 hj2
          rw [hlen2] at ihs
          constructor
          · intro hcount
            have hc : ((cumsumFrom (a + w) (w2 :: t2)).take t2.length).countP
                (fun c => decide (c ≤ x)) = j2 := by omega
            have hres := ihs.mp hc
            refine ⟨?_, ?_⟩
            · simp only [List.take_succ_cons, List.sum_cons] at hres ⊢
              linarith [hres.1]
            · simp only [List.take_succ_cons, List.sum_cons] at hres ⊢
              linarith [hres.2]
          · rintro ⟨hge, hlt⟩
            have hres : (a + w) + ((w2 :: t2).take j2).sum ≤ x ∧
                x < (a + w) + ((w2 :: t2).take (j2 + 1)).sum := by
              simp only [List.take_succ_cons, List.sum_cons] at hge hlt ⊢
              exact ⟨by linarith, by linarith⟩
            have := ihs.mpr hres
            omega
      · have hd : (decide (a + w ≤ x)) = false := decide_eq_false hcut
        have hzero : ((cumsumFrom (a + w) (w2 :: t2)).take t2.length).countP
            (fun c => decide (c ≤ x)) = 0 := by
          refine List.countP_eq_zero.mpr ?_
          intro c hc
          have hcm : c ∈ cumsumFrom (a + w) (w2 :: t2) := List.mem_of_mem_take hc
          have := lt_of_mem_cumsumFrom (w2 :: t2) (a + w) x hnt (by linarith) c hcm
          simp only [decide_eq_true_eq]
          intro hcx
          linarith
        rw [hd, hzero]
        cases j with
        | zero =>
          simp only [List.take_succ_cons, List.take_zero, List.sum_cons, List.sum_nil,
            add_zero]
          exact ⟨fun _ => ⟨hax, by linarith⟩, fun _ => by simp⟩
        | succ j2 =>
          constructor
          · intro hcount
            exfalso
            simp at hcount
          · rintro ⟨hge, -⟩
            exfalso
            have hsum : 0 ≤ ((w2 :: t2).take j2).sum :=
              List.sum_nonneg (fun v hv => hnt v (List.mem_of_mem_take hv))
            simp only [List.take_succ_cons, List.sum_cons] at hge hsum
            linarith

theorem cumsum_getLast (ws : List ℚ) (h : ws ≠ []) :
    (cumsum ws).getLast? = some ws.sum := by
  unfold cumsum
  rw [cumsumFrom_getLast ws 0 h]
  norm_num

theorem pyChoices_eq_ok (pop : List StateID) (ws : List ℚ) (u : ℚ)
    (hlen : pop.length = ws.length) (ht : 0 < ws.sum) :
    pyChoices pop ws u = .ok (pop.getD (choicesIdx ws u) "") ∧
      pop.getD (choicesIdx ws u) "" ∈ pop := by
  have hwne : ws ≠ [] := fun h => by subst h; simp at ht
  have hpne : pop ≠ [] := fun h => by
    subst h
    exact hwne (List.length_eq_zero.mp hlen.symm)
  have hlp : 0 < pop.length := List.length_pos.mpr hpne
  have hidx : choicesIdx ws u < pop.length := by
    have h1 := pyBisect_le (cumsum ws) (u * ws.sum) (ws.length - 1)
    unfold choicesIdx
    omega
  refine ⟨?_, getD_mem_of_lt _ _ _ hidx⟩
  have hgl : (cumsum ws).getLast? = some ws.sum := cumsum_getLast ws hwne
  have hns : ¬ ws.sum ≤ 0 := not_le.mpr ht
  simp only [pyChoices, hgl, if_neg hns]
  unfold choicesIdx
  rw [hlen]
  have hidx3 : pyBisect (cumsum ws) (u * ws.sum) (ws.length - 1) < pop.length := by
    have h1 := pyBisect_le (cumsum ws) (u * ws.sum) (ws.length - 1)
    omega
  rw [List.get?_eq_getElem?, List.getElem?_eq_getElem hidx3,
    List.getD_eq_getElem pop "" hidx3]

theorem resolveNext_isOk (e : Env) (ad : ActionDef) (u : ℚ)
    (hp : probsPositive ad = true) :
    ∃ s, resolveNext e ad u = .ok s := by
  unfold resolveNext
  cases hpr : ad.probabilities with
  | none => exact ⟨_, rfl⟩
  | some probs =>
    have ht : 0 < (probs.map Prod.snd).sum := by
      unfold probsPositive at hp
      rw [hpr] at hp
      simpa using hp
    exact ⟨_, (pyChoices_eq_ok (probs.map Prod.fst) (probs.map Prod.snd) u
      (by simp) ht).1⟩

/-- Exhaustive description of every way `step` can return successfully:
either a penalty branch fired (no actions, or index at or above the
length) and the engine state is untouched, or a valid action was
resolved, in which case the intermediate quantities of the mutation
sequence are exposed. -/
theorem step_ok_cases (e : Env) (i : Int) (u01 : ℚ) (fb rc : Nat)
    (e2 : Env) (res : StepResult)
    (hs : step e i u01 fb rc = .ok (e2, res)) :
    (e2 = e ∧ res = ⟨e.current_state, -1, true⟩ ∧
      (get_available_actions e = [] ∨ ((get_available_actions e).length : Int) ≤ i)) ∨
    (∃ chosen st ad ns0 new_state stNew finalState,
      get_available_actions e ≠ [] ∧
      ¬ ((get_available_actions e).length : Int) ≤ i ∧
      pyIndex (get_available_actions e) i = some chosen ∧
      e.states.lookup e.current_state = some st ∧
      st.actions.lookup chosen = some ad ∧
      resolveNext e ad u01 = .ok ns0 ∧
      ((e.states.lookup ns0).isSome = true ∧ new_state = ns0 ∨
        (e.states.lookup ns0).isSome = false ∧
          pyChoice e.starting_states fb = .ok new_state) ∧
      e.states.lookup new_state = some stNew ∧
      (((get_available_actions
            (commitEnv e (updatedInv e ad) new_state stNew.terminal)).isEmpty
              && !stNew.terminal) = true ∧
          pyChoice e.starting_states rc = .ok finalState ∨
        ((get_available_actions
            (commitEnv e (updatedInv e ad) new_state stNew.terminal)).isEmpty
              && !stNew.terminal) = false ∧
          finalState = new_state) ∧
      e2 = commitEnv e (updatedInv e ad) finalState stNew.terminal ∧
      res = ⟨finalState,
        if finalState = "escape_success" then 1
        else if stNew.terminal then -1 else 0, stNew.terminal⟩) := by
  simp only [step] at hs
  split at hs
  · rename_i hemp
    injection hs with hp
    rw [Prod.mk.injEq] at hp
    exact Or.inl ⟨hp.1.symm, hp.2.symm, Or.inl (List.isEmpty_iff.mp hemp)⟩
  · rename_i hemp
    split at hs
    · rename_i hle
      injection hs with hp
      rw [Prod.mk.injEq] at hp
      exact Or.inl ⟨hp.1.symm, hp.2.symm, Or.inr hle⟩
    · rename_i hle
      have hne : get_available_actions e ≠ [] := by
        simpa [List.isEmpty_iff] using hemp
      split at hs
      · exact absurd hs (by simp)
      · rename_i chosen hchosen
        split at hs
        · exact absurd hs (by simp)
        · rename_i st hst
          split at hs
          · exact absurd hs (by simp)
          · rename_i ad had
            split at hs
            · exact absurd hs (by simp)
            · rename_i ns0 hres
              split at hs
              · exact absurd hs (by simp)
              · rename_i new_state hnsq
                split at hs
                · exact absurd hs (by simp)
                · rename_i stNew hstNew
                  split at hs
                  · exact absurd hs (by simp)
                  · rename_i finalState hfin
                    injection hs with hp
                    rw [Prod.mk.injEq] at hp
                    refine Or.inr ⟨chosen, st, ad, ns0, new_state, stNew, finalState,
                      hne, hle, hchosen, hst, had, hres, ?_, hstNew, ?_,
                      hp.1.symm, hp.2.symm⟩
                    · by_cases hsome : (e.states.lookup ns0).isSome = true
                      · rw [if_pos hsome] at hnsq
                        injection hnsq with hv
                        exact Or.inl ⟨hsome, hv.symm⟩
                      · rw [if_neg hsome] at hnsq
                        have hfalse : (e.states.lookup ns0).isSome = false := by
                          cases h2 : (e.states.lookup ns0).isSome
                          · rfl
                          · exact absurd h2 hsome
                        exact Or.inr ⟨hfalse, hnsq⟩
                    · by_cases hrec : ((get_available_actions
                          (commitEnv e (updatedInv e ad) new_state
                            stNew.terminal)).isEmpty && !stNew.terminal) = true
                      · rw [if_pos hrec] at hfin
                        exact Or.inl ⟨hrec, hfin⟩
                      · rw [if_neg (by simpa using hrec)] at hfin
                        injection hfin with hv
                        exact Or.inr ⟨by simpa using hrec, hv.symm⟩

/-- Exhaustive description of every way `step` can raise: both guards
were passed, and the raise came from Python list indexing, a missing
dictionary key, the weighted draw, or `random.choice` on an empty
starting list. -/
theorem step_error_cases (e : Env) (i : Int) (u01 : ℚ) (fb rc : Nat)
    (msg : String) (hs : step e i u01 fb rc = .error msg) :
    ¬ ((get_available_actions e).length : Int) ≤ i ∧
    get_available_actions e ≠ [] ∧
    (pyIndex (get_available_actions e) i = none ∨
     e.states.lookup e.current_state = none ∨
     (∃ st chosen, e.states.lookup e.current_state = some st ∧
        pyIndex (get_available_actions e) i = some chosen ∧
        st.actions.lookup chosen = none) ∨
     (∃ st chosen ad m2, e.states.lookup e.current_state = some st ∧
        pyIndex (get_available_actions e) i = some chosen ∧
        st.actions.lookup chosen = some ad ∧
        resolveNext e ad u01 = .error m2) ∨
     e.starting_states = [] ∨
     (∃ ns, ns ∈ e.starting_states ∧ e.states.lookup ns = none)) := by
  simp only [step] at hs
  split at hs
  · exact absurd hs (by simp)
  · rename_i hemp
    split at hs
    · exact absurd hs (by simp)
    · rename_i hle
      refine ⟨hle, by simpa [List.isEmpty_iff] using hemp, ?_⟩
      split at hs
      · exact Or.inl (by assumption)
      · rename_i chosen hchosen
        split at hs
        · exact Or.inr (Or.inl (by assumption))
        · rename_i st hst
          split at hs
          · rename_i hlk
            exact Or.inr (Or.inr (Or.inl ⟨st, chosen, hst, hchosen, hlk⟩))
          · rename_i ad had
            split at hs
            · rename_i m2 hre
              exact Or.inr (Or.inr (Or.inr (Or.inl
                ⟨st, chosen, ad, m2, hst, hchosen, had, hre⟩)))
            · rename_i ns0 hre
              split at hs
              · rename_i m2 hnsq
                by_cases hsome : (e.states.lookup ns0).isSome = true
                · rw [if_pos hsome] at hnsq
                  exact absurd hnsq (by simp)
                · rw [if_neg hsome] at hnsq
                  exact Or.inr (Or.inr (Or.inr (Or.inr (Or.inl
                    (pyChoice_error _ _ _ hnsq)))))
              · rename_i new_state hnsq
                split at hs
                · rename_i hlkn
                  by_cases hsome : (e.states.lookup ns0).isSome = true
                  · rw [if_pos hsome] at hnsq
                    injection hnsq with hv2
                    rw [hv2, hlkn] at hsome
                    exact absurd hsome (by simp)
                  · rw [if_neg hsome] at hnsq
                    exact Or.inr (Or.inr (Or.inr (Or.inr (Or.inr
                      ⟨new_state, pyChoice_ok_mem _ _ _ hnsq, hlkn⟩))))
                · rename_i stNew hstNew
                  split at hs
                  · rename_i m2 hrecq
                    split at hrecq
                    · exact Or.inr (Or.inr (Or.inr (Or.inr (Or.inl
                        (pyChoice_error _ _ _ hrecq)))))
                    · exact absurd hrecq (by simp)
                  · exact absurd hs (by simp)

/-! Claim theorems. -/

/-- C3 counterexample: the claim asserts every negative action index is
penalized as out of bounds, but with one available action the index `-1`
is accepted by the guard `action_index >= len(actions)` and resolves the
last action with reward `0`; the index `-2` even raises `IndexError`. -/
theorem step_negative_index_cex :
    initEnv gdCell 0 = .ok envCell ∧
    step envCell (-1) 0 0 0 = .ok (envCell, ⟨"cell", 0, false⟩) ∧
    step envCell (-2) 0 0 0 = .error "IndexError: list index out of range" := by
  decide

/-- C3 (amended): for every integer action index at or above the length
of the available-actions sequence, `step` returns
`(current_state, -1, terminal = true)` and leaves the whole engine state
unchanged; negative indices are not caught by the guard — those in
`[-len, -1]` resolve the action that far from the end, and smaller ones
raise `IndexError`. -/
theorem step_index_out_of_range (e : Env) (i : Int) (u01 : ℚ) (fb rc : Nat)
    (hi : ((get_available_actions e).length : Int) ≤ i) :
    step e i u01 fb rc = .ok (e, ⟨e.current_state, -1, true⟩) := by
  by_cases hemp : (get_available_actions e).isEmpty
  · simp [step, hemp]
  · simp [step, hemp, hi]

/-- Witness for `step_index_out_of_range` at index 99 on `envCell`. -/
theorem step_index_out_of_range_witness :
    step envCell 99 0 0 0 = .ok (envCell, ⟨"cell", -1, true⟩) :=
  step_index_out_of_range envCell 99 0 0 0 (by decide)

/-- C10: in both penalty branches (no available actions, or index at or
above the length) the returned engine state is the input state itself —
`current_state`, inventory and the stored terminal flag included — while
the returned triple reports reward `-1` and `terminal = true`; any
subsequent call therefore sees exactly the pre-call engine state. -/
theorem step_penalty_frame (e : Env) (i : Int) (u01 : ℚ) (fb rc : Nat)
    (h : get_available_actions e = [] ∨
      ((get_available_actions e).length : Int) ≤ i) :
    ∃ res, step e i u01 fb rc = .ok (e, res) ∧ res.reward = -1 ∧
      res.terminal = true ∧ res.obs = e.current_state := by
  refine ⟨⟨e.current_state, -1, true⟩, ?_, rfl, rfl, rfl⟩
  rcases h with h | h
  · have hemp : (get_available_actions e).isEmpty = true := by simp [h]
    simp [step, hemp]
  · by_cases hemp : (get_available_actions e).isEmpty
    · simp [step, hemp]
    · simp [step, hemp, h]

/-- Witness for `step_penalty_frame`: index 5 with one available action. -/
theorem step_penalty_frame_witness :
    ∃ res, step envCell 5 0 0 0 = .ok (envCell, res) ∧ res.reward = -1 ∧
      res.terminal = true ∧ res.obs = envCell.current_state :=
  step_penalty_frame envCell 5 0 0 0 (Or.inr (by decide))

/-- C7: construction fails exactly when the starting-state list filtered
to graph members is empty; on success the initial `current_state` is
drawn from the filtered list, the inventory starts empty and the
terminal flag is clear. -/
theorem initEnv_spec (game_data : GameData) (r : Nat) :
    ((∃ msg, initEnv game_data r = .error msg) ↔
      validStarting game_data = []) ∧
    ∀ e, initEnv game_data r = .ok e →
      e.current_state ∈ validStarting game_data ∧ e.inventory = [] ∧
      e.terminal = false ∧ e.states = game_data.states ∧
      e.starting_states = validStarting game_data := by
  by_cases hemp : (validStarting game_data).isEmpty
  · have hnil : validStarting game_data = [] := List.isEmpty_iff.mp hemp
    constructor
    · exact ⟨fun _ => hnil, fun _ => ⟨_, by simp only [initEnv]; rw [if_pos hemp]⟩⟩
    · intro e he
      simp only [initEnv] at he
      rw [if_pos hemp] at he
      exact absurd he (by simp)
  · have hne : validStarting game_data ≠ [] := by
      simpa [List.isEmpty_iff] using hemp
    obtain ⟨hchoice, hmem⟩ := pyChoice_eq_ok (validStarting game_data) r hne
    constructor
    · constructor
      · rintro ⟨msg, hmsg⟩
        simp only [initEnv] at hmsg
        rw [if_neg hemp, hchoice] at hmsg
        exact absurd hmsg (by simp)
      · intro h
        exact absurd h hne
    · intro e he
      simp only [initEnv] at he
      rw [if_neg hemp, hchoice] at he
      injection he with he2
      subst he2
      exact ⟨hmem, rfl, rfl, rfl, rfl⟩

/-- Witness for `initEnv_spec` on the one-state configuration. -/
theorem initEnv_spec_witness :
    envCell.current_state ∈ validStarting gdCell ∧ envCell.inventory = [] ∧
    envCell.terminal = false ∧ envCell.states = gdCell.states ∧
    envCell.starting_states = validStarting gdCell :=
  (initEnv_spec gdCell 0).2 envCell (by decide)

/-- C1: whenever `step` resolves a valid action, the returned reward is
`1` exactly when the post-recovery current state is `escape_success`;
otherwise it is `-1` when the committed state's terminal flag (also
returned as the terminal component) is set, and `0` when it is clear. -/
theorem step_reward_classification (e : Env) (i : Int) (u01 : ℚ) (fb rc : Nat)
    (e2 : Env) (res : StepResult)
    (hne : get_available_actions e ≠ [])
    (hi : i < ((get_available_actions e).length : Int))
    (hs : step e i u01 fb rc = .ok (e2, res)) :
    res.obs = e2.current_state ∧
    (res.reward = 1 ↔ e2.current_state = "escape_success") ∧
    (e2.current_state ≠ "escape_success" →
      res.reward = if res.terminal = true then (-1 : Int) else 0) := by
  rcases step_ok_cases e i u01 fb rc e2 res hs with
    ⟨-, -, hpen⟩ | ⟨chosen, st, ad, ns0, new_state, stNew, finalState,
      -, -, -, -, -, -, -, -, -, he2, hres⟩
  · rcases hpen with h | h
    · exact absurd h hne
    · exact absurd h (not_le.mpr hi)
  · subst he2
    subst hres
    refine ⟨rfl, ?_, ?_⟩
    · by_cases hesc : finalState = "escape_success"
      · simp [commitEnv, hesc]
      · cases hterm : stNew.terminal <;> simp [commitEnv, hesc, hterm]
    · intro hesc
      simp only [commitEnv] at hesc
      simp [hesc]

/-- Witness for `step_reward_classification`: taking the winning action
yields reward 1 on reaching `escape_success`. -/
theorem step_reward_classification_witness :
    (⟨"escape_success", 1, true⟩ : StepResult).obs = envEscapeWin.current_state ∧
    ((⟨"escape_success", 1, true⟩ : StepResult).reward = 1 ↔
      envEscapeWin.current_state = "escape_success") ∧
    (envEscapeWin.current_state ≠ "escape_success" →
      (⟨"escape_success", 1, true⟩ : StepResult).reward =
        if (⟨"escape_success", 1, true⟩ : StepResult).terminal = true
        then (-1 : Int) else 0) :=
  step_reward_classification envEscape 0 0 0 0 envEscapeWin
    ⟨"escape_success", 1, true⟩ (by decide) (by decide) (by decide)

/-- C4 counterexample: the engine can come to rest in a state with no
available actions and a clear terminal flag — the one-shot recovery
relocates to a starting state, but the starting state `c` is itself
action-less and non-terminal. -/
theorem step_stuck_state_cex :
    initEnv gdStuck 0 = .ok envStuck ∧
    step envStuck 0 0 0 1 = .ok (envStuckAfter, ⟨"c", 0, false⟩) ∧
    get_available_actions envStuckAfter = [] ∧
    envStuckAfter.terminal = false ∧
    (envStuckAfter.states.lookup envStuckAfter.current_state).map
      StateDef.terminal = some false := by
  decide

/-- C4 (amended): whenever `step` resolves a valid action, the resting
state either still offers actions, or the returned terminal flag is set,
or the engine relocated to a member of `starting_states` by the
stuck-state recovery; the relocation target may itself be a stuck
non-terminal state, as the counterexample shows. -/
theorem step_stuck_recovery (e : Env) (i : Int) (u01 : ℚ) (fb rc : Nat)
    (e2 : Env) (res : StepResult)
    (hne : get_available_actions e ≠ [])
    (hi : i < ((get_available_actions e).length : Int))
    (hs : step e i u01 fb rc = .ok (e2, res)) :
    get_available_actions e2 ≠ [] ∨ res.terminal = true ∨
      e2.current_state ∈ e.starting_states := by
  rcases step_ok_cases e i u01 fb rc e2 res hs with
    ⟨-, -, hpen⟩ | ⟨chosen, st, ad, ns0, new_state, stNew, finalState,
      -, -, -, -, -, -, -, -, hrec, he2, hres⟩
  · rcases hpen with h | h
    · exact absurd h hne
    · exact absurd h (not_le.mpr hi)
  · subst he2
    subst hres
    rcases hrec with ⟨-, hchoice⟩ | ⟨hnostuck, hfin⟩
    · exact Or.inr (Or.inr (pyChoice_ok_mem _ _ _ hchoice))
    · cases hterm : stNew.terminal with
      | true => exact Or.inr (Or.inl (by simp [hterm]))
      | false =>
        refine Or.inl ?_
        intro hq
        rw [hfin] at hq
        rw [hterm] at hnostuck
        rw [hq] at hnostuck
        simp at hnostuck

/-- Witness for `step_stuck_recovery` on the self-loop configuration. -/
theorem step_stuck_recovery_witness :
    get_available_actions envCell ≠ [] ∨
      (⟨"cell", 0, false⟩ : StepResult).terminal = true ∨
      envCell.current_state ∈ envCell.starting_states :=
  step_stuck_recovery envCell 0 0 0 0 envCell ⟨"cell", 0, false⟩
    (by decide) (by decide) (by decide)

/-- C6: when the resolved next state id is absent from the graph, the
committed resting state is a member of the validated starting list and is
never the dangling id. -/
theorem step_dangling_next_fallback (e : Env) (i : Int) (u01 : ℚ) (fb rc : Nat)
    (e2 : Env) (res : StepResult) (chosen : ActionID) (st : StateDef)
    (ad : ActionDef) (ns0 : StateID)
    (hv : e.Valid)
    (hchosen : pyIndex (get_available_actions e) i = some chosen)
    (hst : e.states.lookup e.current_state = some st)
    (had : st.actions.lookup chosen = some ad)
    (hr : resolveNext e ad u01 = .ok ns0)
    (hmiss : e.states.lookup ns0 = none)
    (hs : step e i u01 fb rc = .ok (e2, res)) :
    e2.current_state ∈ e.starting_states ∧ e2.current_state ≠ ns0 := by
  rcases step_ok_cases e i u01 fb rc e2 res hs with
    ⟨-, -, hpen⟩ | ⟨c2, st2, ad2, ns2, nst2, stN2, fin2,
      -, -, hc2, hst2, had2, hr2, hns2, -, hrec2, he2, -⟩
  · rcases hpen with h | h
    · exact absurd h (pyIndex_ne_nil _ _ _ hchosen)
    · exact absurd h (not_le.mpr (pyIndex_lt _ _ _ hchosen))
  · rw [hchosen] at hc2
    injection hc2 with hcc
    subst hcc
    rw [hst] at hst2
    injection hst2 with hstq
    subst hstq
    rw [had] at had2
    injection had2 with hadq
    subst hadq
    rw [hr] at hr2
    injection hr2 with hrq
    subst hrq
    rcases hns2 with ⟨hsome, -⟩ | ⟨-, hchoicef⟩
    · rw [hmiss] at hsome
      simp at hsome
    · have hmemn : nst2 ∈ e.starting_states := pyChoice_ok_mem _ _ _ hchoicef
      have hfinmem : fin2 ∈ e.starting_states := by
        rcases hrec2 with ⟨-, hchoicer⟩ | ⟨-, hfin⟩
        · exact pyChoice_ok_mem _ _ _ hchoicer
        · exact hfin ▸ hmemn
      subst he2
      refine ⟨hfinmem, ?_⟩
      intro hq
      have := hv.2 fin2 hfinmem
      simp only [commitEnv] at hq
      rw [hq, hmiss] at this
      simp at this

/-- Witness for `step_dangling_next_fallback` on the dangling-id
configuration: the engine lands on the starting state `b`, not on
`nowhere`. -/
theorem step_dangling_next_fallback_witness :
    envDanglingAfter.current_state ∈ envDangling.starting_states ∧
      envDanglingAfter.current_state ≠ "nowhere" :=
  step_dangling_next_fallback envDangling 0 0 1 0 envDanglingAfter
    ⟨"b", 0, false⟩ "jump"
    { actions := [("jump", { next_state := some "nowhere" })] }
    { next_state := some "nowhere" } "nowhere"
    (by decide) (by decide) (by decide) (by decide) (by decide) (by decide)
    (by decide)

/-- C2 counterexample: an action whose `conditions.requires` is present
but is the empty string is listed by `get_available_actions` although
the inventory is empty — Python's truthiness test `not required_item`
treats the empty-string requirement as absent, while the claimed
contract (`specAvailableActions`, the spec's words) excludes it. -/
theorem get_available_actions_empty_requires_cex :
    initEnv gdEmptyReq 0 = .ok envEmptyReq ∧
    get_available_actions envEmptyReq = ["act"] ∧
    specAvailableActions envEmptyReq = [] ∧
    (envEmptyReq.states.lookup "s").map
      (fun st => (st.actions.lookup "act").map ActionDef.requires) =
      some (some (some "")) := by
  decide

/-- C2 (amended): `get_available_actions` returns, in the defining
order, exactly the actions whose requirement is absent, empty, or an
item already held in the inventory; a current state missing from the
graph yields the empty sequence; and the call is a pure function of the
engine state, so two calls without an intervening `step` agree. -/
theorem get_available_actions_spec (e : Env) :
    (e.states.lookup e.current_state = none → get_available_actions e = []) ∧
    (∀ st, e.states.lookup e.current_state = some st →
      (∀ a : ActionID, a ∈ get_available_actions e ↔
        ∃ ad, (a, ad) ∈ st.actions ∧
          (ad.requires = none ∨ ad.requires = some "" ∨
            ∃ itm, ad.requires = some itm ∧ itm ∈ e.inventory)) ∧
      (get_available_actions e).Sublist (st.actions.map Prod.fst)) ∧
    get_available_actions e = get_available_actions e := by
  refine ⟨?_, ?_, rfl⟩
  · intro h
    unfold get_available_actions
    rw [h]
  · intro st hst
    constructor
    · intro a
      unfold get_available_actions
      rw [hst]
      simp only [List.mem_map, List.mem_filter]
      constructor
      · rintro ⟨p, ⟨hpmem, hpav⟩, hfst⟩
        refine ⟨p.2, ?_, (actionAvailable_iff _ _).mp hpav⟩
        rw [show (a, p.2) = p from by rw [← hfst]]
        exact hpmem
      · rintro ⟨ad, hmem, hcond⟩
        exact ⟨(a, ad), ⟨hmem, (actionAvailable_iff _ _).mpr hcond⟩, rfl⟩
    · unfold get_available_actions
      rw [hst]
      exact (List.filter_sublist st.actions).map Prod.fst

/-- C8 counterexample: immediately after `reset`, the action `act` is
available although it carries a `requires` condition (the empty string)
— so the available list is not limited to actions with no requirement. -/
theorem reset_empty_requires_cex :
    initEnv gdEmptyReq 0 = .ok envEmptyReq ∧
    reset envEmptyReq [0] = .ok (envEmptyReq, "s") ∧
    get_available_actions envEmptyReq = ["act"] ∧
    (envEmptyReq.states.lookup "s").map (fun st => st.actions.lookup "act") =
      some (some { requires := some "", next_state := some "s" }) := by
  decide

/-- C8 (amended): on a validated engine, `reset` (first draw already
valid) returns a starting state present in the graph, clears the
inventory and the terminal flag, and every action available immediately
afterwards has a requirement that is absent or empty — the empty
inventory excludes item-gated actions, but not empty-string-gated ones. -/
theorem reset_spec (e : Env) (r : Nat) (e2 : Env) (s : StateID)
    (hv : e.Valid)
    (hs : reset e [r] = .ok (e2, s)) :
    s ∈ e.starting_states ∧ (e.states.lookup s).isSome = true ∧
    e2.current_state = s ∧ e2.inventory = [] ∧ e2.terminal = false ∧
    ∀ a ∈ get_available_actions e2, ∃ st ad,
      e.states.lookup s = some st ∧ (a, ad) ∈ st.actions ∧
      (ad.requires = none ∨ ad.requires = some "") := by
  obtain ⟨hchoice, hmem⟩ := pyChoice_eq_ok e.starting_states r hv.1
  have hsome := hv.2 _ hmem
  have hpick : resetPick e.states e.starting_states [r] =
      .ok (e.starting_states.getD (r % e.starting_states.length) "") := by
    unfold resetPick
    rw [hchoice]
    exact if_pos hsome
  simp only [reset] at hs
  rw [hpick] at hs
  injection hs with hp
  rw [Prod.mk.injEq] at hp
  obtain ⟨he2, hsq⟩ := hp
  subst he2
  subst hsq
  refine ⟨hmem, hsome, rfl, rfl, rfl, ?_⟩
  intro a ha
  obtain ⟨st, hst⟩ := Option.isSome_iff_exists.mp hsome
  obtain ⟨ad, hmemad, hav⟩ := gaa_mem_actions _ st a hst ha
  refine ⟨st, ad, hst, hmemad, ?_⟩
  unfold actionAvailable at hav
  cases hr : ad.requires with
  | none => exact Or.inl rfl
  | some itm =>
    rw [hr] at hav
    simp at hav
    exact Or.inr (by rw [hav])

/-- Witness for `reset_spec` on the empty-string-requirement engine. -/
theorem reset_spec_witness :
    "s" ∈ envEmptyReq.starting_states ∧
    (envEmptyReq.states.lookup "s").isSome = true ∧
    envEmptyReq.current_state = "s" ∧ envEmptyReq.inventory = [] ∧
    envEmptyReq.terminal = false ∧
    ∀ a ∈ get_available_actions envEmptyReq, ∃ st ad,
      envEmptyReq.states.lookup "s" = some st ∧ (a, ad) ∈ st.actions ∧
      (ad.requires = none ∨ ad.requires = some "") :=
  reset_spec envEmptyReq 0 envEmptyReq "s" (by decide) (by decide)

/-- C5 counterexample: an all-zero `probabilities` mapping makes `step`
raise `random.choices`' ValueError instead of absorbing the anomaly into
a returned triple. -/
theorem step_zero_weights_cex :
    initEnv gdZero 0 = .ok envZero ∧
    step envZero 0 0 0 0 =
      .error "ValueError: total of weights must be greater than zero" := by
  constructor
  · decide
  · have hga : get_available_actions envZero = ["risk"] := by decide
    have hidx : pyIndex ["risk"] (0 : Int) = some "risk" := by decide
    have hlkS : envZero.states.lookup envZero.current_state =
        some { actions := [("risk", { probabilities := some [("s", 0)] })] } := by
      decide
    have hlkA : List.lookup "risk"
        [("risk", ({ probabilities := some [("s", 0)] } : ActionDef))] =
        some ({ probabilities := some [("s", 0)] } : ActionDef) := by decide
    have hsum : cumsum [(0 : ℚ)] = [0] := by
      simp [cumsum, cumsumFrom]
    have hre : resolveNext envZero { probabilities := some [("s", 0)] } 0 =
        .error "ValueError: total of weights must be greater than zero" := by
      unfold resolveNext
      simp only
      unfold pyChoices
      rw [show ([(("s" : StateID), (0 : ℚ))].map Prod.snd) = [(0 : ℚ)] from rfl,
        hsum]
      simp
    simp [step, hga, hidx, hlkS, hlkA, hre]

/-- C5 (amended): on a validated engine, `step` returns a triple rather
than raising provided every probability mapping in the graph has
positive total weight and the action index is not below minus the
number of available actions; an all-zero or empty mapping raises
`ValueError` and an index below the negative bound raises `IndexError`,
so the unrestricted claim fails. -/
theorem step_no_exception (e : Env) (i : Int) (u01 : ℚ) (fb rc : Nat)
    (hv : e.Valid)
    (hw : ∀ p ∈ e.states, ∀ q ∈ p.2.actions, probsPositive q.2 = true)
    (hi : -(((get_available_actions e).length : Int)) ≤ i) :
    ∃ r, step e i u01 fb rc = .ok r := by
  cases hres : step e i u01 fb rc with
  | ok r => exact ⟨r, rfl⟩
  | error msg =>
    exfalso
    obtain ⟨hle, hne, hcase⟩ := step_error_cases e i u01 fb rc msg hres
    rcases hcase with h | h | ⟨st, chosen, hst, hch, hlk⟩ |
      ⟨st, chosen, ad, m2, hst, hch, hlk, hre⟩ | h | ⟨ns, hmem, hlk⟩
    · have := pyIndex_isSome (get_available_actions e) i hi (not_le.mp hle)
      rw [h] at this
      simp at this
    · obtain ⟨st, hst⟩ := gaa_lookup_isSome e hne
      rw [h] at hst
      exact Option.noConfusion hst
    · have := gaa_lookup_action_isSome e st chosen hst (pyIndex_mem _ _ _ hch)
      rw [hlk] at this
      simp at this
    · have hpp : probsPositive ad = true :=
        hw _ (mem_of_lookup_eq_some _ _ _ hst) _ (mem_of_lookup_eq_some _ _ _ hlk)
      obtain ⟨s2, hs2⟩ := resolveNext_isOk e ad u01 hpp
      rw [hre] at hs2
      simp at hs2
    · exact hv.1 h
    · have := hv.2 ns hmem
      rw [hlk] at this
      simp at this

/-- Witness for `step_no_exception` on the probabilistic engine. -/
theorem step_no_exception_witness :
    ∃ r, step envProb 0 (1/2) 0 0 = .ok r :=
  step_no_exception envProb 0 (1/2) 0 0 (by decide)
    (by
      have hR : probsPositive { probabilities := some probsAB } = true := by
        unfold probsPositive
        simp only [decide_eq_true_eq]
        norm_num [probsAB]
      intro p hp q hq
      rw [show envProb.states = statesProb from rfl] at hp
      simp only [statesProb, List.mem_cons, List.not_mem_nil, or_false] at hp
      rcases hp with hp | hp
      · subst hp
        simp only [List.mem_cons, List.not_mem_nil, or_false] at hq
        subst hq
        exact hR
      · subst hp
        simp only [List.mem_cons, List.not_mem_nil, or_false] at hq
        subst hq
        rfl)
    (by decide)

/-- C9: for an action whose `probabilities` mapping carries non-negative
weights of positive total, with the uniform draw `u01 ∈ [0, 1)` made
explicit, the draw inside `step` resolves to the candidate at
`choicesIdx`; candidate `j` is selected exactly when `u01` falls in a
half-open interval of relative width `weight j / total` — selection
probability proportional to the weight — and a zero-weight candidate is
never selected. -/
theorem step_weighted_selection (e : Env) (ad : ActionDef)
    (probs : List (StateID × ℚ)) (u01 : ℚ) (j : Nat)
    (hp : ad.probabilities = some probs)
    (hnn : ∀ p ∈ probs, 0 ≤ p.2)
    (ht : 0 < (probs.map Prod.snd).sum)
    (hu0 : 0 ≤ u01) (hu1 : u01 < 1) (hj : j < probs.length) :
    resolveNext e ad u01 =
      .ok ((probs.map Prod.fst).getD
        (choicesIdx (probs.map Prod.snd) u01) "") ∧
    (choicesIdx (probs.map Prod.snd) u01 = j ↔
      u01 ∈ Set.Ico
        (((probs.map Prod.snd).take j).sum / (probs.map Prod.snd).sum)
        (((probs.map Prod.snd).take (j + 1)).sum / (probs.map Prod.snd).sum)) ∧
    ((probs.map Prod.snd).take (j + 1)).sum / (probs.map Prod.snd).sum -
        ((probs.map Prod.snd).take j).sum / (probs.map Prod.snd).sum =
      (probs.map Prod.snd).getD j 0 / (probs.map Prod.snd).sum ∧
    ((probs.map Prod.snd).getD j 0 = 0 →
      choicesIdx (probs.map Prod.snd) u01 ≠ j) := by
  set ws := probs.map Prod.snd with hws
  have hwnn : ∀ w ∈ ws, 0 ≤ w := by
    intro w hw
    rw [hws] at hw
    obtain ⟨p, hpmem, hpe⟩ := List.mem_map.mp hw
    exact hpe ▸ hnn p hpmem
  have hjw : j < ws.length := by
    rw [hws]
    simpa using hj
  have hx0 : (0 : ℚ) ≤ u01 * ws.sum := mul_nonneg hu0 ht.le
  have hx1 : u01 * ws.sum < 0 + ws.sum := by
    rw [zero_add]
    exact mul_lt_of_lt_one_left ht hu1
  have hmain := countP_cumsumFrom_eq ws 0 (u01 * ws.sum) j hwnn hx0 hx1 hjw
  have h2 : choicesIdx ws u01 = j ↔
      u01 ∈ Set.Ico ((ws.take j).sum / ws.sum)
        ((ws.take (j + 1)).sum / ws.sum) := by
    rw [Set.mem_Ico, div_le_iff₀ ht, lt_div_iff₀ ht]
    simpa [choicesIdx, pyBisect, cumsum, zero_add] using hmain
  have hgetd : ws.getD j 0 = ws.get ⟨j, hjw⟩ := by
    rw [List.getD_eq_getElem ws 0 hjw]
    simp [List.get_eq_getElem]
  have h3 : (ws.take (j + 1)).sum / ws.sum - (ws.take j).sum / ws.sum =
      ws.getD j 0 / ws.sum := by
    rw [div_sub_div_same]
    congr 1
    rw [List.sum_take_succ ws j hjw, hgetd]
    exact add_sub_cancel_left _ _
  have h4 : ws.getD j 0 = 0 → choicesIdx ws u01 ≠ j := by
    intro hz hcontra
    have hmem := h2.mp hcontra
    rw [Set.mem_Ico] at hmem
    have heq0 : (ws.take (j + 1)).sum / ws.sum -
        (ws.take j).sum / ws.sum = 0 := by
      rw [h3, hz, zero_div]
    obtain ⟨hge, hlt⟩ := hmem
    linarith
  refine ⟨?_, h2, h3, h4⟩
  unfold resolveNext
  rw [hp]
  exact (pyChoices_eq_ok (probs.map Prod.fst) ws u01 (by rw [hws]; simp) ht).1

/-- Witness for `step_weighted_selection` with weights `A: 3, B: 1`,
draw `1/2` and candidate index 0. -/
theorem step_weighted_selection_witness :
    resolveNext envCell adProb (1/2) =
      .ok ((probsAB.map Prod.fst).getD
        (choicesIdx (probsAB.map Prod.snd) (1/2)) "") ∧
    (choicesIdx (probsAB.map Prod.snd) (1/2) = 0 ↔
      (1/2 : ℚ) ∈ Set.Ico
        (((probsAB.map Prod.snd).take 0).sum / (probsAB.map Prod.snd).sum)
        (((probsAB.map Prod.snd).take (0 + 1)).sum /
          (probsAB.map Prod.snd).sum)) ∧
    ((probsAB.map Prod.snd).take (0 + 1)).sum / (probsAB.map Prod.snd).sum -
        ((probsAB.map Prod.snd).take 0).sum / (probsAB.map Prod.snd).sum =
      (probsAB.map Prod.snd).getD 0 0 / (probsAB.map Prod.snd).sum ∧
    ((probsAB.map Prod.snd).getD 0 0 = 0 →
      choicesIdx (probsAB.map Prod.snd) (1/2) ≠ 0) :=
  step_weighted_selection envCell adProb probsAB (1/2) 0 rfl
    (by
      intro p hp
      simp only [probsAB, List.mem_cons, List.not_mem_nil, or_false] at hp
      rcases hp with hp | hp <;> subst hp <;> norm_num)
    (by norm_num [probsAB]) (by norm_num) (by norm_num) (by decide)

end Imprisoned
